import Mathlib

/-!
Shallow embedding of the `dna_array` C sources.

The repository packs DNA sequences, represented as 2-bit codes
(A=0, C=1, G=2, T=3), four codes per byte, first code in the most
significant bit pair.  `save_large_array_to_file` packs an array of codes
into a byte stream, `read_large_array_from_file` unpacks a byte stream
back into codes given an explicit count, `base_to_code` encodes a base
character, and `process_fastq` drives record-batch encoding of FASTQ
sequence lines.  File I/O is modelled by lists of byte values; the fatal
`exit(EXIT_FAILURE)` paths are modelled as `none`.
-/

/-- Encoding table `base_to_code` from the C source: the switch maps
'A' to 0, 'C' to 1, 'G' to 2, 'T' to 3 and every other character to the
invalid sentinel 255. -/
def base_to_code (base : Char) : Nat :=
  if base = 'A' then 0
  else if base = 'C' then 1
  else if base = 'G' then 2
  else if base = 'T' then 3
  else 255

/-- Loop of `save_large_array_to_file`.  State: the pending byte `buffer`
and `bit_position` (0, 2, 4 or 6).  Each element contributes its low two
bits (`arr[i] & 0x03`) shifted to `6 - bit_position`; when the byte fills
(`bit_position == 8`) it is written and the state reset; at the end a
partially filled byte (`bit_position > 0`) is flushed. -/
def save_loop : List Nat → Nat → Nat → List Nat
  | [], buffer, bit_position => if 0 < bit_position then [buffer] else []
  | a :: rest, buffer, bit_position =>
    let buffer2 := buffer ||| ((a &&& 3) <<< (6 - bit_position))
    if bit_position + 2 = 8 then buffer2 :: save_loop rest 0 0
    else save_loop rest buffer2 (bit_position + 2)

/-- The function `save_large_array_to_file`, with the output file modelled
as the list of bytes written. -/
def save_large_array_to_file (arr : List Nat) : List Nat :=
  save_loop arr 0 0

/-- Loop of `read_large_array_from_file`.  State: the remaining input
byte stream, the current `buffer` and `bit_position`, and the number of
codes still to produce.  A new byte is read whenever `bit_position == 0`;
when the stream is exhausted `fread` fails and the buffer keeps its old
value, as in the C code.  Each code is `(buffer >> (6 - bit_position)) & 3`. -/
def read_loop : List Nat → Nat → Nat → Nat → List Nat
  | _, _, _, 0 => []
  | stream, buffer, bit_position, n + 1 =>
    if bit_position = 0 then
      match stream with
      | [] => ((buffer >>> 6) &&& 3) :: read_loop [] buffer 2 n
      | b :: rest => ((b >>> 6) &&& 3) :: read_loop rest b 2 n
    else
      ((buffer >>> (6 - bit_position)) &&& 3) ::
        read_loop stream buffer (if bit_position + 2 = 8 then 0 else bit_position + 2) n

/-- The function `read_large_array_from_file`, with the input file modelled
as the list of bytes it contains. -/
def read_large_array_from_file (bytes : List Nat) (size : Nat) : List Nat :=
  read_loop bytes 0 0 size

/-- One packed byte holding four 2-bit codes, first code in bits 7 and 6. -/
def packByte (c0 c1 c2 c3 : Nat) : Nat :=
  ((c0 &&& 3) <<< 6) ||| ((c1 &&& 3) <<< 4) ||| ((c2 &&& 3) <<< 2) ||| (c3 &&& 3)

/-- Encoding loop body of `process_fastq`: encode the characters of `seq`
at indices `i, i+1, ...` for `fuel` steps.  `none` models the fatal
`exit(EXIT_FAILURE)` on an invalid base.  An index past the end of the
line reads the terminating NUL character of the C string, which also
encodes as invalid. -/
def encode_window (seq : List Char) (i : Nat) : Nat → Option (List Nat)
  | 0 => some []
  | fuel + 1 =>
    let code := base_to_code (seq.getD i (Char.ofNat 0))
    if code = 255 then none
    else
      match encode_window seq (i + 1) fuel with
      | none => none
      | some codes => some (code :: codes)

/-- Record loop of `process_fastq`.  `records` holds the sequence lines
(newline already stripped).  A record is skipped (`continue`) when its
length is below the hardcoded 32 or it contains 'N' (`strchr(seq, 'N')`);
otherwise its first `kmer_length` characters are encoded, fatally on an
invalid base, and the loop stops once `num_reads` records are accepted.
Returns the accumulated code sequence. -/
def process_records : List (List Char) → Nat → Nat → List Nat → Nat → Option (List Nat)
  | [], _, _, acc, _ => some acc
  | seq :: rest, num_reads, kmer_length, acc, total_reads =>
    if seq.length < 32 ∨ 'N' ∈ seq then
      process_records rest num_reads kmer_length acc total_reads
    else
      match encode_window seq 0 kmer_length with
      | none => none
      | some codes =>
        if total_reads + 1 = num_reads then some (acc ++ codes)
        else process_records rest num_reads kmer_length (acc ++ codes) (total_reads + 1)

/-- Result of one `process_fastq` invocation: the bytes written to the
output file (`none` when the file was never touched) and the returned
`total_bases`. -/
structure FastqResult where
  written : Option (List Nat)
  total_bases : Nat
deriving DecidableEq

/-- Top level of `process_fastq`: when the output file already exists the
function returns 0 at once without touching the file; otherwise the
records are processed, the accumulated codes packed and written via
`save_large_array_to_file`, and the count of encoded bases returned.
`none` models the fatal exits. -/
def process_fastq (output_exists : Bool) (records : List (List Char))
    (num_reads kmer_length : Nat) : Option FastqResult :=
  if output_exists then some ⟨none, 0⟩
  else
    match process_records records num_reads kmer_length [] 0 with
    | none => none
    | some codes => some ⟨some (save_large_array_to_file codes), codes.length⟩

lemma and3_eq_mod (x : Nat) : x &&& 3 = x % 4 :=
  Nat.and_pow_two_sub_one_eq_mod x 2

lemma and3_lt (x : Nat) : x &&& 3 < 4 := by
  rw [and3_eq_mod]; omega

lemma and3_of_lt {x : Nat} (h : x < 4) : x &&& 3 = x := by
  rw [and3_eq_mod]; omega

lemma and3_and3 (x : Nat) : (x &&& 3) &&& 3 = x &&& 3 := by
  rw [and3_eq_mod, and3_eq_mod]; omega

lemma packByte_mask (a b c d : Nat) :
    packByte a b c d = packByte (a &&& 3) (b &&& 3) (c &&& 3) (d &&& 3) := by
  simp only [packByte, and3_and3]

lemma packByte_extract_lt :
    ∀ a < 4, ∀ b < 4, ∀ c < 4, ∀ d < 4,
      ((packByte a b c d >>> 6) &&& 3 = a) ∧ ((packByte a b c d >>> 4) &&& 3 = b) ∧
      ((packByte a b c d >>> 2) &&& 3 = c) ∧ (packByte a b c d &&& 3 = d) := by
  decide

lemma packByte_extract (a b c d : Nat) :
    ((packByte a b c d >>> 6) &&& 3 = a &&& 3) ∧
    ((packByte a b c d >>> 4) &&& 3 = b &&& 3) ∧
    ((packByte a b c d >>> 2) &&& 3 = c &&& 3) ∧
    (packByte a b c d &&& 3 = d &&& 3) := by
  rw [packByte_mask]
  exact packByte_extract_lt _ (and3_lt a) _ (and3_lt b) _ (and3_lt c) _ (and3_lt d)

lemma save_nil : save_loop [] 0 0 = [] := rfl

lemma save_one (a : Nat) : save_loop [a] 0 0 = [packByte a 0 0 0] := by
  simp [save_loop, packByte]

lemma save_two (a b : Nat) : save_loop [a, b] 0 0 = [packByte a b 0 0] := by
  simp [save_loop, packByte]

lemma save_three (a b c : Nat) : save_loop [a, b, c] 0 0 = [packByte a b c 0] := by
  simp [save_loop, packByte]

lemma save_chunk (a b c d : Nat) (rest : List Nat) :
    save_loop (a :: b :: c :: d :: rest) 0 0 = packByte a b c d :: save_loop rest 0 0 := by
  simp [save_loop, packByte, Nat.or_assoc]

lemma read_one (x buf : Nat) : read_loop [x] buf 0 1 = [(x >>> 6) &&& 3] := by
  simp [read_loop]

lemma read_two (x buf : Nat) :
    read_loop [x] buf 0 2 = [(x >>> 6) &&& 3, (x >>> 4) &&& 3] := by
  simp [read_loop]

lemma read_three (x buf : Nat) :
    read_loop [x] buf 0 3 = [(x >>> 6) &&& 3, (x >>> 4) &&& 3, (x >>> 2) &&& 3] := by
  simp [read_loop]

lemma read_chunk (x buf n : Nat) (rest : List Nat) :
    read_loop (x :: rest) buf 0 (n + 4) =
      ((x >>> 6) &&& 3) :: ((x >>> 4) &&& 3) :: ((x >>> 2) &&& 3) :: (x &&& 3) ::
        read_loop rest x 0 n := by
  simp [read_loop]

lemma read_loop_buf (s : List Nat) (buf buf2 n : Nat) (h : s = [] → n = 0) :
    read_loop s buf 0 n = read_loop s buf2 0 n := by
  match s, n with
  | _, 0 => rfl
  | [], n + 1 => exact absurd (h rfl) (by omega)
  | x :: r, n + 1 => simp [read_loop]

lemma save_loop_length :
    ∀ seq : List Nat, (save_loop seq 0 0).length = (seq.length + 3) / 4
  | [] => rfl
  | [a] => by rw [save_one]; simp
  | [a, b] => by rw [save_two]; simp
  | [a, b, c] => by rw [save_three]; simp
  | a :: b :: c :: d :: rest => by
    rw [save_chunk]
    simp only [List.length_cons, save_loop_length rest]
    omega

/-- Induction principle for lists processed four elements at a time. -/
def chunk4Rec {P : List Nat → Prop} (h0 : P []) (h1 : ∀ a, P [a])
    (h2 : ∀ a b, P [a, b]) (h3 : ∀ a b c, P [a, b, c])
    (h4 : ∀ a b c d rest, P rest → P (a :: b :: c :: d :: rest)) :
    ∀ l, P l
  | [] => h0
  | [a] => h1 a
  | [a, b] => h2 a b
  | [a, b, c] => h3 a b c
  | a :: b :: c :: d :: rest => h4 a b c d rest (chunk4Rec h0 h1 h2 h3 h4 rest)

lemma roundtrip_aux :
    ∀ seq : List Nat, (∀ x ∈ seq, x < 4) →
      read_loop (save_loop seq 0 0) 0 0 seq.length = seq := by
  refine chunk4Rec ?_ ?_ ?_ ?_ ?_
  · intro _; rfl
  · intro a h
    have ha : a < 4 := h a (by simp)
    rw [List.length_singleton, save_one, read_one, (packByte_extract a 0 0 0).1,
      and3_of_lt ha]
  · intro a b h
    have ha : a < 4 := h a (by simp)
    have hb : b < 4 := h b (by simp)
    rw [show [a, b].length = 2 from rfl, save_two, read_two,
      (packByte_extract a b 0 0).1, (packByte_extract a b 0 0).2.1,
      and3_of_lt ha, and3_of_lt hb]
  · intro a b c h
    have ha : a < 4 := h a (by simp)
    have hb : b < 4 := h b (by simp)
    have hc : c < 4 := h c (by simp)
    rw [show [a, b, c].length = 3 from rfl, save_three, read_three,
      (packByte_extract a b c 0).1, (packByte_extract a b c 0).2.1,
      (packByte_extract a b c 0).2.2.1, and3_of_lt ha, and3_of_lt hb, and3_of_lt hc]
  · intro a b c d rest ih h
    have ha : a < 4 := h a (by simp)
    have hb : b < 4 := h b (by simp)
    have hc : c < 4 := h c (by simp)
    have hd : d < 4 := h d (by simp)
    have hrest : ∀ x ∈ rest, x < 4 := fun x hx => h x (by simp [hx])
    have hlen : (a :: b :: c :: d :: rest).length = rest.length + 4 := by
      simp
    rw [hlen, save_chunk, read_chunk,
      (packByte_extract a b c d).1, (packByte_extract a b c d).2.1,
      (packByte_extract a b c d).2.2.1, (packByte_extract a b c d).2.2.2,
      and3_of_lt ha, and3_of_lt hb, and3_of_lt hc, and3_of_lt hd,
      read_loop_buf (save_loop rest 0 0) (packByte a b c d) 0 rest.length ?_,
      ih hrest]
    intro hnil
    have := save_loop_length rest
    rw [hnil] at this
    simp at this
    omega

lemma save_loop_map_mod :
    ∀ (arr : List Nat) (buf bp : Nat),
      save_loop (arr.map (fun x => x % 4)) buf bp = save_loop arr buf bp := by
  intro arr
  induction arr with
  | nil => intro buf bp; rfl
  | cons x rest ih =>
    intro buf bp
    have hm : (x % 4) &&& 3 = x &&& 3 := by
      rw [and3_eq_mod, and3_eq_mod]; omega
    simp only [List.map, save_loop, hm]
    split
    · rw [ih]
    · rw [ih]

lemma read_loop_all_lt :
    ∀ (n : Nat) (s : List Nat) (buf bp x : Nat),
      x ∈ read_loop s buf bp n → x < 4 := by
  intro n
  induction n with
  | zero =>
    intro s buf bp x hx
    simp [read_loop] at hx
  | succ n ih =>
    intro s buf bp x hx
    by_cases hbp : bp = 0
    · subst hbp
      cases s with
      | nil =>
        simp only [read_loop, if_pos rfl] at hx
        rcases List.mem_cons.mp hx with h | h
        · subst h; exact and3_lt _
        · exact ih _ _ _ _ h
      | cons b rest =>
        simp only [read_loop, if_pos rfl] at hx
        rcases List.mem_cons.mp hx with h | h
        · subst h; exact and3_lt _
        · exact ih _ _ _ _ h
    · simp only [read_loop, if_neg hbp] at hx
      rcases List.mem_cons.mp hx with h | h
      · subst h; exact and3_lt _
      · exact ih _ _ _ _ h

/-- C1: round-trip identity: for every sequence of codes in [0,3], of any
length (multiples of 4 or not), unpacking the packed byte stream with the
same declared count yields the original sequence. -/
theorem C1_roundtrip (seq : List Nat) (h : ∀ x ∈ seq, x < 4) :
    read_large_array_from_file (save_large_array_to_file seq) seq.length = seq :=
  roundtrip_aux seq h

/-- Witness for C1 at the concrete length-5 sequence [0, 1, 2, 3, 3]. -/
theorem C1_roundtrip_witness :
    read_large_array_from_file (save_large_array_to_file [0, 1, 2, 3, 3])
      (List.length [0, 1, 2, 3, 3]) = [0, 1, 2, 3, 3] :=
  C1_roundtrip [0, 1, 2, 3, 3] (by decide)

/-- C6: packing density and flush: the packed output has exactly
ceil(len/4) bytes; in particular a partially filled byte is emitted as one
final byte and the empty sequence produces no bytes at all. -/
theorem C6_pack_density (seq : List Nat) :
    (save_large_array_to_file seq).length = (seq.length + 3) / 4 ∧
    save_large_array_to_file [] = [] :=
  ⟨save_loop_length seq, rfl⟩

/-- C9: pack masks its inputs: packing any byte sequence equals packing the
sequence with every element reduced modulo 4, so an out-of-range element
only contributes its low two bits. -/
theorem C9_pack_masks (arr : List Nat) :
    save_large_array_to_file arr =
      save_large_array_to_file (arr.map (fun x => x % 4)) :=
  (save_loop_map_mod arr 0 0).symm

/-- C10: unpack output range invariant: every code produced by unpacking
any byte stream with any declared count lies in [0,3]. -/
theorem C10_unpack_range (bytes : List Nat) (n : Nat) :
    (read_large_array_from_file bytes n).all (fun x => decide (x < 4)) = true := by
  rw [List.all_eq_true]
  intro x hx
  simpa using read_loop_all_lt n bytes 0 0 x hx

lemma read_index :
    ∀ (bytes : List Nat) (buf n : Nat), (n + 3) / 4 ≤ bytes.length →
      ∀ i, i < n →
        (read_loop bytes buf 0 n).getD i 0 =
          (bytes.getD (i / 4) 0 >>> (6 - 2 * (i % 4))) &&& 3 := by
  intro bytes
  induction bytes with
  | nil =>
    intro buf n hn i hi
    simp only [List.length_nil, Nat.le_zero] at hn
    omega
  | cons b rest ih =>
    intro buf n hn i hi
    rcases n with _ | _ | _ | _ | m
    · omega
    · have h0 : i = 0 := by omega
      subst h0
      simp [read_loop]
    · have h01 : i = 0 ∨ i = 1 := by omega
      rcases h01 with h | h <;> subst h <;> simp [read_loop]
    · have h012 : i = 0 ∨ i = 1 ∨ i = 2 := by omega
      rcases h012 with h | h | h <;> subst h <;> simp [read_loop]
    · rw [read_chunk]
      by_cases hi4 : i < 4
      · have hcase : i = 0 ∨ i = 1 ∨ i = 2 ∨ i = 3 := by omega
        rcases hcase with h | h | h | h <;> subst h <;> simp
      · obtain ⟨j, rfl⟩ : ∃ j, i = j + 4 := ⟨i - 4, by omega⟩
        have hpeel :
            (((b >>> 6) &&& 3) :: ((b >>> 4) &&& 3) :: ((b >>> 2) &&& 3) ::
              (b &&& 3) :: read_loop rest b 0 m).getD (j + 4) 0 =
            (read_loop rest b 0 m).getD j 0 := rfl
        have hdiv : (j + 4) / 4 = j / 4 + 1 := by omega
        have hmod : (j + 4) % 4 = j % 4 := by omega
        rw [hpeel, hdiv, hmod, List.getD_cons_succ]
        exact ih b m (by simp at hn; omega) j (by omega)

/-- C4: unpack indexing / random-access equivalence: when the byte stream
holds at least ceil(n/4) bytes, the i-th code produced by unpacking equals
(bytes[i/4] >> (6 - 2*(i%4))) & 3, so the first code of each byte occupies
bits 7-6 and the last occupies bits 1-0. -/
theorem C4_unpack_random_access (bytes : List Nat) (n : Nat)
    (hlen : (n + 3) / 4 ≤ bytes.length) (i : Nat) (hi : i < n) :
    (read_large_array_from_file bytes n).getD i 0 =
      (bytes.getD (i / 4) 0 >>> (6 - 2 * (i % 4))) &&& 3 :=
  read_index bytes 0 n hlen i hi

/-- Witness for C4 at the concrete stream [0x1B, 0xC0] with n = 6, i = 4. -/
theorem C4_unpack_random_access_witness :
    (read_large_array_from_file [0x1B, 0xC0] 6).getD 4 0 =
      (List.getD [0x1B, 0xC0] (4 / 4) 0 >>> (6 - 2 * (4 % 4))) &&& 3 :=
  C4_unpack_random_access [0x1B, 0xC0] 6 (by decide) 4 (by decide)

/-- C3 counterexample: the claim asserts pack([0,1,2,3]) == [0x17], but the
code produces [0x1B] = [(0<<6)|(1<<4)|(2<<2)|3]. -/
theorem C3_pack_layout_counterexample :
    save_large_array_to_file [0, 1, 2, 3] ≠ [0x17] ∧
    save_large_array_to_file [0, 1, 2, 3] = [0x1B] := by
  decide

/-- C3 amended: for every group of 4 codes the emitted byte is
(c0<<6)|(c1<<4)|(c2<<2)|c3; a final group of 1-3 codes is left-aligned
from the most significant bit pair with unused low bits zero; and
pack([0,1,2,3]) = [0x1B], pack([3]) = [0xC0], pack([]) = []. -/
theorem C3_pack_layout (c0 c1 c2 c3 : Nat) (rest : List Nat)
    (h0 : c0 < 4) (h1 : c1 < 4) (h2 : c2 < 4) (h3 : c3 < 4) :
    save_loop (c0 :: c1 :: c2 :: c3 :: rest) 0 0 =
      ((c0 <<< 6) ||| (c1 <<< 4) ||| (c2 <<< 2) ||| c3) :: save_loop rest 0 0 ∧
    save_large_array_to_file [c0] = [c0 <<< 6] ∧
    save_large_array_to_file [c0, c1] = [(c0 <<< 6) ||| (c1 <<< 4)] ∧
    save_large_array_to_file [c0, c1, c2] =
      [(c0 <<< 6) ||| (c1 <<< 4) ||| (c2 <<< 2)] ∧
    save_large_array_to_file [0, 1, 2, 3] = [0x1B] ∧
    save_large_array_to_file [3] = [0xC0] ∧
    save_large_array_to_file [] = [] := by
  refine ⟨?_, ?_, ?_, ?_, by decide, by decide, rfl⟩
  · rw [save_chunk]
    simp [packByte, and3_of_lt h0, and3_of_lt h1, and3_of_lt h2, and3_of_lt h3]
  · rw [save_large_array_to_file, save_one]
    simp [packByte, and3_of_lt h0]
  · rw [save_large_array_to_file, save_two]
    simp [packByte, and3_of_lt h0, and3_of_lt h1]
  · rw [save_large_array_to_file, save_three]
    simp [packByte, and3_of_lt h0, and3_of_lt h1, and3_of_lt h2]

/-- Witness for C3 at the concrete chunk [1, 2, 3, 0]. -/
theorem C3_pack_layout_witness :
    save_loop [1, 2, 3, 0] 0 0 =
      (((1 : Nat) <<< 6) ||| (2 <<< 4) ||| (3 <<< 2) ||| 0) :: save_loop [] 0 0 :=
  (C3_pack_layout 1 2 3 0 [] (by decide) (by decide) (by decide) (by decide)).1

/-- C5: symbol codec encoding: exactly 'A','C','G','T' map to 0,1,2,3; every
other character maps to the sentinel 255, which is not a value in [0,3]. -/
theorem C5_base_to_code_spec :
    base_to_code 'A' = 0 ∧ base_to_code 'C' = 1 ∧ base_to_code 'G' = 2 ∧
    base_to_code 'T' = 3 ∧
    ∀ c : Char, c ≠ 'A' → c ≠ 'C' → c ≠ 'G' → c ≠ 'T' →
      base_to_code c = 255 ∧ ¬ base_to_code c < 4 := by
  refine ⟨rfl, rfl, rfl, rfl, ?_⟩
  intro c hA hC hG hT
  have h255 : base_to_code c = 255 := by
    simp [base_to_code, hA, hC, hG, hT]
  exact ⟨h255, by omega⟩

/-- Witness for C5 at the ambiguity code 'N'. -/
theorem C5_base_to_code_spec_witness :
    base_to_code 'N' = 255 ∧ ¬ base_to_code 'N' < 4 :=
  C5_base_to_code_spec.2.2.2.2 'N' (by decide) (by decide) (by decide) (by decide)

/-- C7: existing-output short-circuit: when the target output artifact
already exists, process_fastq writes nothing and reports zero bases. -/
theorem C7_output_exists_skip (records : List (List Char))
    (num_reads kmer_length : Nat) :
    process_fastq true records num_reads kmer_length = some ⟨none, 0⟩ := rfl

lemma encode_window_none (seq : List Char) :
    ∀ (fuel start : Nat),
      (∃ j, j < fuel ∧ base_to_code (seq.getD (start + j) (Char.ofNat 0)) = 255) →
      encode_window seq start fuel = none := by
  intro fuel
  induction fuel with
  | zero =>
    rintro start ⟨j, hj, -⟩
    omega
  | succ fuel ih =>
    rintro start ⟨j, hj, hbad⟩
    by_cases h0 : base_to_code (seq.getD start (Char.ofNat 0)) = 255
    · simp only [encode_window]
      rw [if_pos h0]
    · have hj0 : j ≠ 0 := by
        intro h
        subst h
        rw [Nat.add_zero] at hbad
        exact h0 hbad
      obtain ⟨j2, rfl⟩ : ∃ j2, j = j2 + 1 := ⟨j - 1, by omega⟩
      have hrec : encode_window seq (start + 1) fuel = none := by
        refine ih (start + 1) ⟨j2, by omega, ?_⟩
        rw [show start + 1 + j2 = start + (j2 + 1) from by omega]
        exact hbad
      simp only [encode_window]
      rw [if_neg h0, hrec]

/-- C8: invalid symbol at the encode stage is fatal: a record that passes
the pre-filter but has a character among its first kmer_length positions
encoding to the invalid sentinel aborts the whole operation (modelled by
none), rather than being skipped. -/
theorem C8_invalid_base_fatal (seq : List Char) (rest : List (List Char))
    (num_reads kmer_length : Nat) (acc : List Nat) (total_reads : Nat)
    (hpass : ¬ (seq.length < 32 ∨ 'N' ∈ seq))
    (i : Nat) (hik : i < kmer_length)
    (hbad : base_to_code (seq.getD i (Char.ofNat 0)) = 255) :
    process_records (seq :: rest) num_reads kmer_length acc total_reads = none := by
  have henc : encode_window seq 0 kmer_length = none :=
    encode_window_none seq kmer_length 0 ⟨i, hik, by simpa using hbad⟩
  simp [process_records, hpass, henc]

/-- Witness for C8: a 32-character record starting with lowercase 'a'
passes the pre-filter and is fatal at the encode stage. -/
theorem C8_invalid_base_fatal_witness :
    process_records [('a' :: List.replicate 31 'A')] 1 32 [] 0 = none :=
  C8_invalid_base_fatal ('a' :: List.replicate 31 'A') [] 1 32 [] 0
    (by decide) 0 (by decide) (by decide)

/-- C2 counterexample: with window length K = 4, the record "ACGT" has
length at least K and only alphabet characters, so by the claim it must not
be skipped; the code nevertheless skips it (the length test is against the
hardcoded 32), so it contributes nothing to the output. -/
theorem C2_prefilter_counterexample :
    ¬ (List.length ['A', 'C', 'G', 'T'] < 4 ∨
        ∃ c ∈ (['A', 'C', 'G', 'T'] : List Char),
          c ∉ (['A', 'C', 'G', 'T'] : List Char)) ∧
    process_records [['A', 'C', 'G', 'T']] 1 4 [] 0 = some [] := by
  exact ⟨by decide, by decide⟩

/-- C2 amended: a record is silently skipped iff its symbol-line length is
below the hardcoded 32 (independent of K) or the line contains the
character 'N'; every other record proceeds to the encode stage. -/
theorem C2_prefilter (seq : List Char) (rest : List (List Char))
    (num_reads kmer_length : Nat) (acc : List Nat) (total_reads : Nat) :
    (seq.length < 32 ∨ 'N' ∈ seq →
      process_records (seq :: rest) num_reads kmer_length acc total_reads =
        process_records rest num_reads kmer_length acc total_reads) ∧
    (¬ (seq.length < 32 ∨ 'N' ∈ seq) →
      process_records (seq :: rest) num_reads kmer_length acc total_reads =
        match encode_window seq 0 kmer_length with
        | none => none
        | some codes =>
          if total_reads + 1 = num_reads then some (acc ++ codes)
          else
            process_records rest num_reads kmer_length (acc ++ codes)
              (total_reads + 1)) := by
  constructor
  · intro h
    simp [process_records, h]
  · intro h
    simp [process_records, h]

/-- Witness for C2: a length-1 record is skipped. -/
theorem C2_prefilter_witness :
    process_records [['A']] 5 32 [] 0 = process_records [] 5 32 [] 0 :=
  (C2_prefilter ['A'] [] 5 32 [] 0).1 (by decide)

